import Mathlib

/-!
Verification development for the Comment Wizard extension (src/extension.js).

Strings are modelled as `List Char`.  JavaScript objects used as keyword
maps are modelled as insertion-ordered association lists
`List (List Char × List Char)` (JS string-keyed objects preserve insertion
order and have distinct keys).  Regular expressions that are constants of
the source are translated into executable Lean functions with the same
matching semantics; the scanning loops (`while (m = re.exec(text))`) are
modelled by `jsLoop`, which follows the `lastIndex` discipline of a global
JavaScript regex, with a fuel argument so that a loop in which a
zero-length match prevents `lastIndex` from advancing (which loops forever
in JavaScript) is observable as an uncompleted run.
-/

namespace CommentWizard

/-- JS `\w` word character: `[A-Za-z0-9_]`. -/
def isWordChar (c : Char) : Bool := c.isAlpha || c.isDigit || c == '_'

/-- Character class of the literal-keyword charset `[a-zA-Z0-9_-]` used by
`validateKeyword` (src/extension.js line 304). -/
def isLitChar (c : Char) : Bool := c.isAlpha || c.isDigit || c == '_' || c == '-'

/-- Hex digit, case-insensitive (the `i` flag of the color regex). -/
def isHexDigit (c : Char) : Bool :=
  c.isDigit || (decide ('A' ≤ c) && decide (c ≤ 'F')) || (decide ('a' ≤ c) && decide (c ≤ 'f'))

/-- Model of `isValidColor` (src/extension.js lines 322-329): the color matches
`^#([0-9A-F]{3}|[0-9A-F]{6})$` case-insensitively. -/
def isValidColor (color : List Char) : Bool :=
  match color with
  | '#' :: rest => (rest.length == 3 || rest.length == 6) && rest.all isHexDigit
  | _ => false

/-- Model of `validateKeyword` (src/extension.js lines 295-320): the keyword must have
length at least `minLength`, must match `/^[a-zA-Z0-9_-]+$/`, and the color
must pass `isValidColor`.  (The `typeof` string checks are vacuous in the
typed model.) -/
def validateKeyword (keyword color : List Char) (minLength : Nat) : Bool :=
  if keyword.length < minLength then false
  else if !(!keyword.isEmpty && keyword.all isLitChar) then false
  else isValidColor color

/-- The loop body of `validateKeywords` (src/extension.js lines 276-286):
walks the entries with a running `count`, breaks (dropping the entire rest)
when `count >= maxKeywords`, keeps an entry and increments `count` when
`validateKeyword` accepts it, and silently skips rejected entries. -/
def validateKeywordsGo (minLength maxKeywords : Nat) :
    List (List Char × List Char) → Nat → List (List Char × List Char)
  | [], _ => []
  | e :: rest, count =>
    if maxKeywords ≤ count then []
    else if validateKeyword e.1 e.2 minLength then
      e :: validateKeywordsGo minLength maxKeywords rest (count + 1)
    else validateKeywordsGo minLength maxKeywords rest count

/-- Model of `validateKeywords` (src/extension.js lines 267-293) on the merged entry
list, with the configured `minKeywordLength` and `maxKeywords`. -/
def validateKeywords (entries : List (List Char × List Char)) (minLength maxKeywords : Nat) :
    List (List Char × List Char) :=
  validateKeywordsGo minLength maxKeywords entries 0

/-- Model of `isRegexKeyword` (src/extension.js lines 630-637): the keyword starts and
ends with `/` and has length greater than 2. -/
def isRegexKeyword (keyword : List Char) : Bool :=
  (keyword.head? == some '/') && (keyword.getLast? == some '/') && decide (2 < keyword.length)

/-- Model of `regexKeyword.slice(1, -1)` (src/extension.js line 645): strip the first
and last character. -/
def sliceInner (keyword : List Char) : List Char := (keyword.drop 1).dropLast

/-- Constant `MAX_ERRORS` (src/extension.js line 10). -/
def MAX_ERRORS : Nat := 10

/-- The state of the output-channel logger: the appended lines and the
process-wide `errorCount` (src/extension.js lines 8-9). -/
structure LogState where
  lines : List (List Char)
  errorCount : Nat

/-- Model of `logger.appendLine` on the modelled sink. -/
def appendLine (st : LogState) (l : List Char) : LogState :=
  { st with lines := st.lines ++ [l] }

/-- Model of `logError` (src/extension.js lines 22-43): appends the `[ERROR]` line
(and the details line when an error object is given), then increments
`errorCount`, and when the incremented count exceeds `MAX_ERRORS` appends a
"Too many errors" line and returns.  Note the count check happens after the
message has already been appended. -/
def logError (message : List Char) (err : Option (List Char)) (st : LogState) : LogState :=
  let st1 := appendLine st (("[ERROR] ").data ++ message)
  let st2 := match err with
    | some d => appendLine st1 (("[ERROR] Details: ").data ++ d)
    | none => st1
  let st3 := { st2 with errorCount := st2.errorCount + 1 }
  if st3.errorCount > MAX_ERRORS then
    appendLine st3 ((("[ERROR] Too many errors (").data ++ (Nat.repr st3.errorCount).data
      ++ ("), stopping logging").data))
  else st3

/-- A match span in the document text: `(startOffset, endOffset)`, a
half-open character range. -/
abbrev Span := Nat × Nat

/-- Whether `tok` is an initial segment of `s`. -/
def tokAt : List Char → List Char → Bool
  | [], _ => true
  | _ :: _, [] => false
  | a :: ts, b :: ss => (a == b) && tokAt ts ss

/-- Smallest index `j` with `lo ≤ j ≤ hi` satisfying `p`, if any:
the position search of a regex engine scanning left to right. -/
def findFromIdx (p : Nat → Bool) (lo hi : Nat) : Option Nat :=
  (List.range' lo (hi + 1 - lo)).find? p

/-- Number of characters from index `i` up to (not including) the next
newline or the end of `s`: the extent of `.*$` under the `m` flag. -/
def eolLen (s : List Char) (i : Nat) : Nat :=
  ((s.drop i).takeWhile (fun c => !(c == '\n'))).length

/-- The `type` tag of a comment descriptor (`'single'` / `'multi'`). -/
inductive CKind where
  | single
  | multi
deriving DecidableEq

/-- The shape of every pattern in the `getCommentPatterns` table
(src/extension.js lines 473-574): a line pattern `tok.*$` with flags `gm`
(match from a comment-opening token to end of line), or a non-greedy block
pattern `open[\s\S]*?close` with flags `gm` (match from an opening token to
the nearest following closing token). -/
inductive CPattern where
  | lineTok (tok : List Char)
  | blockTok (openTok closeTok : List Char)
deriving DecidableEq

/-- A comment descriptor `{ type, pattern }` from the table. -/
structure CDesc where
  type : CKind
  pattern : CPattern
deriving DecidableEq

/-- Semantics of `pattern.exec(s)` for a table pattern with the scan starting
at `lastIndex = li`: the leftmost match at a position `≥ li`, returned as
`(index, length)`.
For `tok.*$` the match at the first occurrence of `tok` extends to the end
of its line.  For `open[\s\S]*?close` the match starts at the first
occurrence of `open` that is followed by a closing token and, being lazy,
ends at the nearest such closing token. -/
def cpExec : CPattern → List Char → Nat → Option (Nat × Nat)
  | .lineTok tok, s, li =>
    (findFromIdx (fun j => tokAt tok (s.drop j)) li s.length).map
      (fun j => (j, tok.length + eolLen s (j + tok.length)))
  | .blockTok ot ct, s, li =>
    (findFromIdx
        (fun j => tokAt ot (s.drop j)
          && (findFromIdx (fun k => tokAt ct (s.drop k)) (j + ot.length) s.length).isSome)
        li s.length).bind
      (fun j =>
        (findFromIdx (fun k => tokAt ct (s.drop k)) (j + ot.length) s.length).map
          (fun k => (j, k + ct.length - j)))

/-- Three single-quote characters, the Python `'''` docstring delimiter. -/
def tripleSq : List Char := [Char.ofNat 39, Char.ofNat 39, Char.ofNat 39]

/-- Model of `getCommentPatterns` (src/extension.js lines 471-581): the static
language table; unsupported identifiers yield `[]`. -/
def getCommentPatterns (languageId : List Char) : List CDesc :=
  if languageId == ("javascript").data then
    [⟨.single, .lineTok ("//").data⟩, ⟨.multi, .blockTok ("/*").data (("*/").data)⟩]
  else if languageId == ("typescript").data then
    [⟨.single, .lineTok ("//").data⟩, ⟨.multi, .blockTok ("/*").data (("*/").data)⟩]
  else if languageId == ("python").data then
    [⟨.single, .lineTok ("#").data⟩,
     ⟨.multi, .blockTok ("\"\"\"").data ("\"\"\"").data⟩,
     ⟨.multi, .blockTok tripleSq tripleSq⟩]
  else if languageId == ("java").data then
    [⟨.single, .lineTok ("//").data⟩, ⟨.multi, .blockTok ("/*").data (("*/").data)⟩]
  else if languageId == ("c").data then
    [⟨.single, .lineTok ("//").data⟩, ⟨.multi, .blockTok ("/*").data (("*/").data)⟩]
  else if languageId == ("cpp").data then
    [⟨.single, .lineTok ("//").data⟩, ⟨.multi, .blockTok ("/*").data (("*/").data)⟩]
  else if languageId == ("csharp").data then
    [⟨.single, .lineTok ("//").data⟩, ⟨.multi, .blockTok ("/*").data (("*/").data)⟩]
  else if languageId == ("html").data then
    [⟨.multi, .blockTok ("<!--").data ("-->").data⟩]
  else if languageId == ("css").data then
    [⟨.multi, .blockTok ("/*").data (("*/").data)⟩]
  else if languageId == ("sql").data then
    [⟨.single, .lineTok ("--").data⟩, ⟨.multi, .blockTok ("/*").data (("*/").data)⟩]
  else if languageId == ("php").data then
    [⟨.single, .lineTok ("//").data⟩, ⟨.single, .lineTok ("#").data⟩,
     ⟨.multi, .blockTok ("/*").data (("*/").data)⟩]
  else if languageId == ("ruby").data then
    [⟨.single, .lineTok ("#").data⟩, ⟨.multi, .blockTok ("=begin").data ("=end").data⟩]
  else if languageId == ("go").data then
    [⟨.single, .lineTok ("//").data⟩, ⟨.multi, .blockTok ("/*").data (("*/").data)⟩]
  else if languageId == ("rust").data then
    [⟨.single, .lineTok ("//").data⟩, ⟨.multi, .blockTok ("/*").data (("*/").data)⟩]
  else if languageId == ("kotlin").data then
    [⟨.single, .lineTok ("//").data⟩, ⟨.multi, .blockTok ("/*").data (("*/").data)⟩]
  else if languageId == ("swift").data then
    [⟨.single, .lineTok ("//").data⟩, ⟨.multi, .blockTok ("/*").data (("*/").data)⟩]
  else if languageId == ("xml").data then
    [⟨.multi, .blockTok ("<!--").data ("-->").data⟩]
  else if languageId == ("yaml").data then
    [⟨.single, .lineTok ("#").data⟩]
  else if languageId == ("shell").data then
    [⟨.single, .lineTok ("#").data⟩]
  else if languageId == ("bash").data then
    [⟨.single, .lineTok ("#").data⟩]
  else if languageId == ("dockerfile").data then
    [⟨.single, .lineTok ("#").data⟩]
  else if languageId == ("powershell").data then
    [⟨.single, .lineTok ("#").data⟩]
  else if languageId == ("r").data then
    [⟨.single, .lineTok ("#").data⟩]
  else if languageId == ("lua").data then
    [⟨.single, .lineTok ("--").data⟩, ⟨.multi, .blockTok ("--[[").data ("]]").data⟩]
  else if languageId == ("perl").data then
    [⟨.single, .lineTok ("#").data⟩]
  else if languageId == ("dart").data then
    [⟨.single, .lineTok ("//").data⟩, ⟨.multi, .blockTok ("/*").data (("*/").data)⟩]
  else if languageId == ("scala").data then
    [⟨.single, .lineTok ("//").data⟩, ⟨.multi, .blockTok ("/*").data (("*/").data)⟩]
  else []

/-- The JavaScript descriptors, used by the concrete test texts. -/
def jsDescriptors : List CDesc := getCommentPatterns (("javascript").data)

/-- The `while ((m = re.exec(text)) !== null)` loop of a global JS regex:
`exec` looks for the leftmost match from `lastIndex`, and on success sets
`lastIndex` to the end of the match (`index + length`), so a zero-length
match does not advance the cursor and the loop never terminates in
JavaScript.  `fuel` bounds the modelled iterations; the `Bool` is `true`
exactly when the loop exited because `exec` returned `null`. -/
def jsLoop (ex : Nat → Option (Nat × Nat)) :
    Nat → Nat → List (Nat × Nat) → List (Nat × Nat) × Bool
  | 0, _, acc => (acc, false)
  | fuel + 1, li, acc =>
    match ex li with
    | none => (acc, true)
    | some m => jsLoop ex fuel (m.1 + m.2) (acc ++ [m])

/-- The matches collected by `jsLoop` (first component). -/
def jsMatches (ex : Nat → Option (Nat × Nat)) (fuel li : Nat) : List (Nat × Nat) :=
  (jsLoop ex fuel li []).1

/-- All `(commentStart, commentLength)` matches of one comment pattern over
the document text, scanning from incoming `lastIndex = li`.  For the table
patterns every match is nonempty so fuel `text.length + 1` completes the
loop. -/
def commentsOf (p : CPattern) (text : List Char) (li : Nat) : List (Nat × Nat) :=
  jsMatches (cpExec p text) (text.length + 1) li

/-- The comment substring `match[0]` of the text. -/
def commentSub (text : List Char) (m : Nat × Nat) : List Char :=
  (text.drop m.1).take m.2

/-- Case folding of the `i` flag (ASCII, as for a non-Unicode JS regex):
identity when `caseSensitive`. -/
def foldChar (cs : Bool) (c : Char) : Char := if cs then c else c.toLower

/-- Equality of two character lists up to the case folding of the flags. -/
def foldEq (cs : Bool) : List Char → List Char → Bool
  | [], [] => true
  | a :: ta, b :: tb => (foldChar cs a == foldChar cs b) && foldEq cs ta tb
  | _, _ => false

/-- Is the character at index `i` of `s` a word character (out of range
counts as non-word)? -/
def wordAt (s : List Char) (i : Nat) : Bool :=
  match s.get? i with
  | some c => isWordChar c
  | none => false

/-- JS `\b` at position `i` of `s`: the word-ness changes between the
previous character and the current one. -/
def boundaryAt (s : List Char) (i : Nat) : Bool :=
  (if i = 0 then false else wordAt s (i - 1)) != wordAt s i

/-- Does `\b K \b` (with `K` the literal keyword, escaped by `escapeRegExp`
so it matches itself character by character) match at position `i` of `s`,
under the case folding of the flags?  Word boundaries are evaluated on the
original characters. -/
def litMatchAt (kw : List Char) (cs : Bool) (s : List Char) (i : Nat) : Bool :=
  boundaryAt s i && boundaryAt s (i + kw.length) && foldEq cs ((s.drop i).take kw.length) kw

/-- Semantics of `keywordRegex.exec(commentText)` for the literal keyword regex
`` new RegExp(`\b${escapeRegExp(keyword)}\b`, caseSensitive ? g : gi) ``
(src/extension.js lines 604-605): leftmost match from `lastIndex = li`;
the match length equals the keyword length. -/
def litExec (kw : List Char) (cs : Bool) (s : List Char) (li : Nat) : Option (Nat × Nat) :=
  (findFromIdx (litMatchAt kw cs s) li s.length).map (fun j => (j, kw.length))

/-- All matches of the literal keyword regex in one comment text (the regex
is freshly constructed per comment, so the scan starts at 0). -/
def kwMatchesIn (kw : List Char) (cs : Bool) (ctext : List Char) : List (Nat × Nat) :=
  jsMatches (litExec kw cs ctext) (ctext.length + 1) 0

/-- One iteration of the `commentPatterns.forEach` body of
`findCommentKeywords` (src/extension.js lines 595-621) for the literal
path: enumerate the comments of this pattern from its incoming `lastIndex`,
push a span `(commentStart + index, commentStart + index + keyword.length)`
for every keyword match inside each comment, and leave the pattern with
`lastIndex = 0` (the failing final `exec` resets it and line 617 sets it
explicitly). -/
def scanDescLit (text kw : List Char) (cs : Bool) (p : CPattern) (li : Nat) :
    List Span × Nat :=
  ((commentsOf p text li).flatMap
      (fun m => (kwMatchesIn kw cs (commentSub text m)).map
        (fun km => (m.1 + km.1, m.1 + km.1 + kw.length))),
   0)

/-- The literal path of `findCommentKeywords` over the descriptor list,
threading each descriptor's mutable `lastIndex` (the `st` list, one cursor
per descriptor, missing entries read as 0): returns the collected spans and
the descriptors' cursor states after the call. -/
def findLiteralDescsSt (text kw : List Char) (cs : Bool) :
    List CDesc → List Nat → List Span × List Nat
  | [], _ => ([], [])
  | d :: ds, st =>
    let r := scanDescLit text kw cs d.pattern (st.headD 0)
    let rest := findLiteralDescsSt text kw cs ds st.tail
    (r.1 ++ rest.1, r.2 :: rest.2)

/-- The literal path of `findCommentKeywords` on freshly created patterns
(every `lastIndex` 0, as `getCommentPatterns` returns them). -/
def findLiteralKeywords (text kw : List Char) (cs : Bool) (ds : List CDesc) : List Span :=
  (findLiteralDescsSt text kw cs ds (List.replicate ds.length 0)).1

/-- The compiled user regex of the regex-keyword path, as a function:
given the `caseSensitive` flag (the compile flags are
`caseSensitive ? g : gi`, src/extension.js line 646), a comment text and a
`lastIndex`, return the leftmost match from that position as
`(index, length)`.  A `compile` argument of type `RegexCompile` models
`new RegExp(pattern, flags)` applied to a pattern string. -/
abbrev RegexExec := List Char → Nat → Option (Nat × Nat)

/-- Model of `new RegExp` as a mapping from inner pattern string and `caseSensitive`
flag to a compiled matcher. -/
abbrev RegexCompile := List Char → Bool → RegexExec

/-- All matches of the compiled user regex in one comment text
(src/extension.js lines 657-665; the regex is constructed per comment, so
the scan starts at 0).  Fuel `ctext.length + 1`: when the pattern can match
the empty string, `lastIndex` stops advancing, the JavaScript loop never
terminates, and here the run is truncated with its completion flag false. -/
def userMatchesIn (uexec : RegexExec) (ctext : List Char) : List (Nat × Nat) :=
  jsMatches (uexec ctext) (ctext.length + 1) 0

/-- One iteration of the `commentPatterns.forEach` body of
`findRegexKeywords` (src/extension.js lines 648-672): enumerate the
comments of this pattern, push a span
`(commentStart + index, commentStart + index + match[0].length)` for every
user-regex match inside each comment, and leave the pattern with
`lastIndex = 0` (line 668). -/
def scanDescRegex (uexec : RegexExec) (text : List Char) (p : CPattern) (li : Nat) :
    List Span × Nat :=
  ((commentsOf p text li).flatMap
      (fun m => (userMatchesIn uexec (commentSub text m)).map
        (fun rm => (m.1 + rm.1, m.1 + rm.1 + rm.2))),
   0)

/-- The descriptor loop of `findRegexKeywords`, threading each descriptor's
`lastIndex` as in the literal path. -/
def findRegexDescsSt (uexec : RegexExec) (text : List Char) :
    List CDesc → List Nat → List Span × List Nat
  | [], _ => ([], [])
  | d :: ds, st =>
    let r := scanDescRegex uexec text d.pattern (st.headD 0)
    let rest := findRegexDescsSt uexec text ds st.tail
    (r.1 ++ rest.1, r.2 :: rest.2)

/-- Model of `findRegexKeywords` (src/extension.js lines 639-679): unwrap the
keyword from its `/pattern/` form with `slice(1, -1)`, compile the inner
pattern with flags `caseSensitive ? g : gi`, and scan every comment of
every descriptor, offsetting spans by the comment start. -/
def findRegexKeywords (compile : RegexCompile) (regexKeyword : List Char) (cs : Bool)
    (text : List Char) (ds : List CDesc) : List Span :=
  (findRegexDescsSt (compile (sliceInner regexKeyword) cs) text ds
      (List.replicate ds.length 0)).1

/-- Model of `findCommentKeywords` (src/extension.js lines 583-628): when
`enableRegexKeywords` is set and the keyword has the `/pattern/` form,
dispatch to `findRegexKeywords`; otherwise run the literal word-boundary
matcher. -/
def findCommentKeywords (enableRegex : Bool) (compile : RegexCompile)
    (text keyword : List Char) (ds : List CDesc) (cs : Bool) : List Span :=
  if enableRegex && isRegexKeyword keyword then
    findRegexKeywords compile keyword cs text ds
  else
    findLiteralKeywords text keyword cs ds

/-- JS `\s` whitespace (ASCII range plus NBSP and BOM; the remaining
Unicode space separators do not occur in the texts considered). -/
def isJsSpace (c : Char) : Bool :=
  c == ' ' || c == '\t' || c == '\n' || c == '\r'
    || c == Char.ofNat 11 || c == Char.ofNat 12 || c == Char.ofNat 160 || c == Char.ofNat 0xFEFF

/-- Pieces of the JS regex `URL:\s*\S+` (the inner pattern of the user
keyword `/URL:\s*\S+/`) matched at position `j` of `s`: the literal `URL:`
(case-folded when the `i` flag is on), then a greedy run of whitespace,
then a greedy nonempty run of non-whitespace.  `\s` and `\S` are disjoint,
so backtracking never changes this outcome.  `urlWs` is the length of the
greedy `\s*` run after the 4-character literal. -/
def urlWs (s : List Char) (j : Nat) : Nat :=
  ((s.drop (j + 4)).takeWhile isJsSpace).length

/-- Length of the greedy `\S+` run after the whitespace run of `urlWs`. -/
def urlNw (s : List Char) (j : Nat) : Nat :=
  (((s.drop (j + 4)).drop (urlWs s j)).takeWhile (fun c => !isJsSpace c)).length

/-- Match length at position `j` (none when `\S+` finds nothing): the
literal `URL:`, the whitespace run, and the nonempty non-whitespace run. -/
def urlMatchAt (cs : Bool) (s : List Char) (j : Nat) : Option Nat :=
  if foldEq cs ((s.drop j).take 4) (("URL:").data) then
    if urlNw s j = 0 then none else some (4 + urlWs s j + urlNw s j)
  else none

/-- The compiled matcher of the inner pattern `URL:\s*\S+` with flags
`g` (case-sensitive) or `gi`: leftmost match from `lastIndex`. -/
def urlExec (cs : Bool) (s : List Char) (li : Nat) : Option (Nat × Nat) :=
  (findFromIdx (fun j => (urlMatchAt cs s j).isSome) li s.length).bind
    (fun j => (urlMatchAt cs s j).map (fun l => (j, l)))

/-- A `new RegExp` model that is only ever applied to the inner pattern
`URL:\s*\S+`: it returns that pattern's matcher. -/
def urlCompile : RegexCompile := fun _ cs => urlExec cs

/-- The compiled matcher of the inner pattern `x*` (from the user keyword
`/x*/`) with flags `g`/`gi`: at every position not beyond the end it
matches the greedy run of `x`, which may be empty. -/
def starXExec (cs : Bool) (s : List Char) (li : Nat) : Option (Nat × Nat) :=
  if li ≤ s.length then
    some (li, ((s.drop li).takeWhile (fun c => foldChar cs c == foldChar cs 'x')).length)
  else none

/-- A `new RegExp` model that is only ever applied to the inner pattern
`x*`: it returns that pattern's matcher. -/
def starXCompile : RegexCompile := fun _ cs => starXExec cs

/-- The document text of the literal-matching test (C2). -/
def c2Text : List Char := ("// TODO: fix this\nlet x = 5; // not a comment marker TODOX").data

/-- A document with a line comment containing `URL: http://x` (C3). -/
def c3Text : List Char := ("let u; // URL: http://x").data

/-- The same document with `url:` in lower case (C3, flag check). -/
def c3TextLower : List Char := ("let u; // url: http://x").data

/-- The message of the per-keyword catch in `updateDecorations`
(src/extension.js line 444). -/
def errKwLine (keyword : List Char) : List Char :=
  ("Error processing keyword ").data ++ keyword

/-- The `Object.keys(validKeywords).forEach` loop of `updateDecorations`
(src/extension.js lines 434-446): for each keyword, look up its decoration
type (`hasDeco`; missing means skip), run the matcher (`run`, which may
fail like a thrown exception in `findCommentKeywords`), apply the spans
when nonempty, and on failure log an error for this keyword and continue
with the rest.  Returns the applied `(keyword, spans)` decorations and the
`(message, details)` error reports, in iteration order. -/
def scanKeywords (hasDeco : List Char → Bool)
    (run : List Char → Except (List Char) (List Span)) :
    List (List Char) → List (List Char × List Span) × List (List Char × List Char)
  | [] => ([], [])
  | k :: ks =>
    if !hasDeco k then scanKeywords hasDeco run ks
    else
      match run k with
      | .ok sp =>
        if 0 < sp.length then
          ((k, sp) :: (scanKeywords hasDeco run ks).1, (scanKeywords hasDeco run ks).2)
        else scanKeywords hasDeco run ks
      | .error e =>
        ((scanKeywords hasDeco run ks).1, (errKwLine k, e) :: (scanKeywords hasDeco run ks).2)

/-- A demonstration matcher for the scan-isolation witness: the keyword
`BAD` fails (as a keyword whose matching throws would), every other
keyword returns one span. -/
def c7Run : List Char → Except (List Char) (List Span) :=
  fun kw => if kw == ("BAD").data then Except.error (("boom").data) else Except.ok [(0, 4)]

/-- A decoration-type table in which every keyword is present. -/
def allDeco : List Char → Bool := fun _ => true

/-- The optional `settings` block of a theme document: each field is
present or absent (`theme.settings.x !== undefined`). -/
structure ThemeSettings where
  caseSensitive : Option Bool
  highlightStyle : Option (List Char)
  fontWeight : Option (List Char)
  showIcons : Option Bool
  enableRegexKeywords : Option Bool
deriving DecidableEq

/-- A parsed theme document (the JSON shape written by `exportTheme` and
read by `importTheme`); `none` models an absent (or JS-falsy) key. -/
structure Theme where
  name : Option (List Char)
  keywords : Option (List (List Char × List Char))
  customKeywords : Option (List (List Char × List Char))
  settings : Option ThemeSettings
deriving DecidableEq

/-- The effective `commentWizard` configuration values read and written by
export/import (each `config.get` supplies a default, so every field is
total). -/
structure Config where
  keywords : List (List Char × List Char)
  customKeywords : List (List Char × List Char)
  caseSensitive : Bool
  highlightStyle : List Char
  fontWeight : List Char
  showIcons : Bool
  enableRegexKeywords : Bool
deriving DecidableEq

/-- The user-visible outcome of `importTheme`: the rejection error message,
or the success toast with the theme name. -/
inductive ImportOutcome where
  | rejected (msg : List Char)
  | imported (themeName : Option (List Char))
deriving DecidableEq

/-- Model of the `keywords` update guarded by
`if (theme.keywords)` (src/extension.js lines 847-849). -/
def applyKeywords (k : Option (List (List Char × List Char))) (c : Config) : Config :=
  match k with
  | some m => { c with keywords := m }
  | none => c

/-- Model of the `customKeywords` update, guarded as above (lines 851-853). -/
def applyCustom (k : Option (List (List Char × List Char))) (c : Config) : Config :=
  match k with
  | some m => { c with customKeywords := m }
  | none => c

/-- The settings import block (src/extension.js lines 856-873): each field
is written only when defined in the theme. -/
def applySettings (s : ThemeSettings) (c : Config) : Config :=
  let c1 := match s.caseSensitive with
    | some v => { c with caseSensitive := v }
    | none => c
  let c2 := match s.highlightStyle with
    | some v => { c1 with highlightStyle := v }
    | none => c1
  let c3 := match s.fontWeight with
    | some v => { c2 with fontWeight := v }
    | none => c2
  let c4 := match s.showIcons with
    | some v => { c3 with showIcons := v }
    | none => c3
  match s.enableRegexKeywords with
  | some v => { c4 with enableRegexKeywords := v }
  | none => c4

/-- Guard `if (theme.settings)` of the settings block (src/extension.js line 856). -/
def applySettingsOpt (s : Option ThemeSettings) (c : Config) : Config :=
  match s with
  | some st => applySettings st c
  | none => c

/-- Model of `importTheme` (src/extension.js lines 822-882) after the file has been
read and parsed: if neither `keywords` nor `customKeywords` is present
the import is rejected with an error toast and nothing is written; otherwise
the present keys and defined settings are written and the success toast
shows the theme name. -/
def importTheme (t : Theme) (c : Config) : Config × ImportOutcome :=
  if t.keywords.isNone && t.customKeywords.isNone then
    (c, ImportOutcome.rejected (("Invalid theme file: missing keywords").data))
  else
    (applySettingsOpt t.settings (applyCustom t.customKeywords (applyKeywords t.keywords c)),
     ImportOutcome.imported t.name)

/-- Model of `exportTheme` (src/extension.js lines 786-820): the theme document
built from the current configuration (`dateName` stands for the
date-derived name string). -/
def exportTheme (c : Config) (dateName : List Char) : Theme :=
  { name := some dateName
    keywords := some c.keywords
    customKeywords := some c.customKeywords
    settings := some
      { caseSensitive := some c.caseSensitive
        highlightStyle := some c.highlightStyle
        fontWeight := some c.fontWeight
        showIcons := some c.showIcons
        enableRegexKeywords := some c.enableRegexKeywords } }

/-- Value of key `k` in an association list modelling a JS object. -/
def lookupKw (m : List (List Char × List Char)) (k : List Char) : Option (List Char) :=
  (m.find? (fun e => e.1 == k)).map (fun e => e.2)

/-- The object spread `{ ...d, ...c2 }`: keys of `d` in order with values
overridden by `c2` on collision, then the keys only in `c2`, in order. -/
def mergeSpread (d c2 : List (List Char × List Char)) : List (List Char × List Char) :=
  d.map (fun e => (e.1, (lookupKw c2 e.1).getD e.2))
    ++ c2.filter (fun e => (lookupKw d e.1).isNone)

/-- Model of `safeMergeKeywords` (src/extension.js lines 249-265) on a well-formed
configuration: the spread merge of `keywords` and `customKeywords`
(custom overrides default). -/
def safeMergeKeywords (c : Config) : List (List Char × List Char) :=
  mergeSpread c.keywords c.customKeywords

/-- A theme document with both keyword keys absent (C8 witness input). -/
def c8Theme : Theme :=
  { name := some (("empty").data)
    keywords := none
    customKeywords := none
    settings := some
      { caseSensitive := some true
        highlightStyle := some (("border").data)
        fontWeight := some (("normal").data)
        showIcons := some true
        enableRegexKeywords := some true } }

/-- A concrete configuration (C8 witness input). -/
def c8Config : Config :=
  { keywords := [((("TODO").data), (("#00BFFF").data))]
    customKeywords := [((("URGENT").data), (("#FF0000").data))]
    caseSensitive := false
    highlightStyle := ("text").data
    fontWeight := ("bold").data
    showIcons := false
    enableRegexKeywords := false }

end CommentWizard

namespace CommentWizard

theorem validateKeywordsGo_eq (minL maxK : Nat) :
    ∀ (es : List (List Char × List Char)) (count : Nat),
      validateKeywordsGo minL maxK es count
        = (es.filter (fun e => validateKeyword e.1 e.2 minL)).take (maxK - count) := by
  intro es
  induction es with
  | nil => intro count; simp [validateKeywordsGo]
  | cons e rest ih =>
    intro count
    by_cases hc : maxK ≤ count
    · have h0 : maxK - count = 0 := by omega
      simp [validateKeywordsGo, hc, h0]
    · by_cases hv : validateKeyword e.1 e.2 minL
      · have hs : maxK - count = (maxK - (count + 1)) + 1 := by omega
        simp [validateKeywordsGo, hc, hv, ih, hs]
      · simp [validateKeywordsGo, hc, hv, ih]

/-- C6: the validated keyword set is exactly the first `maxKeywords` entries
(in iteration order) that pass per-entry validation — later entries are
dropped — and in particular its size never exceeds `maxKeywords`. -/
theorem validateKeywords_cap (entries : List (List Char × List Char)) (minL maxK : Nat) :
    validateKeywords entries minL maxK
        = (entries.filter (fun e => validateKeyword e.1 e.2 minL)).take maxK
      ∧ (validateKeywords entries minL maxK).length ≤ maxK := by
  have h : validateKeywords entries minL maxK
      = (entries.filter (fun e => validateKeyword e.1 e.2 minL)).take maxK := by
    have := validateKeywordsGo_eq minL maxK entries 0
    simpa [validateKeywords] using this
  refine ⟨h, ?_⟩
  rw [h]
  exact (List.length_take _ _).trans_le (Nat.min_le_left _ _)

/-- C1: the code rejects every `/pattern/` regex wrapper.  The keyword
`/TODO/` is a recognized regex wrapper (`isRegexKeyword` accepts it), has
length at least the default minimum 2, and is paired with a valid hex color,
yet `validateKeyword` returns `false` for it, because the literal charset
`[a-zA-Z0-9_-]` has no `/` and the validator has no regex-wrapper branch. -/
theorem regexWrapperRejected :
    isRegexKeyword (("/TODO/").data) = true
      ∧ 2 ≤ (("/TODO/").data).length
      ∧ isValidColor (("#FF0000").data) = true
      ∧ validateKeyword (("/TODO/").data) (("#FF0000").data) 2 = false := by
  decide

theorem tokAt_length_le : ∀ (tok s : List Char), tokAt tok s = true → tok.length ≤ s.length
  | [], _, _ => Nat.zero_le _
  | _ :: _, [], h => by simp [tokAt] at h
  | a :: ts, b :: ss, h => by
    simp only [tokAt, Bool.and_eq_true] at h
    simpa [Nat.succ_le_succ_iff] using tokAt_length_le ts ss h.2

theorem findFromIdx_bounds {p : Nat → Bool} {lo hi j : Nat}
    (h : findFromIdx p lo hi = some j) : lo ≤ j ∧ j ≤ hi ∧ p j = true := by
  unfold findFromIdx at h
  have hp := List.find?_some h
  have hm := List.mem_of_find?_eq_some h
  rw [List.mem_range'_1] at hm
  exact ⟨hm.1, by omega, hp⟩

theorem cpExec_start_le (p : CPattern) (s : List Char) (li j len : Nat)
    (h : cpExec p s li = some (j, len)) : j ≤ s.length := by
  cases p with
  | lineTok tok =>
    simp only [cpExec, Option.map_eq_some'] at h
    obtain ⟨j0, hf, he⟩ := h
    obtain ⟨-, h2, -⟩ := findFromIdx_bounds hf
    injection he with ha _
    omega
  | blockTok ot ct =>
    simp only [cpExec, Option.bind_eq_some, Option.map_eq_some'] at h
    obtain ⟨j0, hf, k, -, he⟩ := h
    obtain ⟨-, h2, -⟩ := findFromIdx_bounds hf
    injection he with ha _
    omega

theorem foldEq_length {cs : Bool} : ∀ {a b : List Char}, foldEq cs a b = true → a.length = b.length
  | [], [], _ => rfl
  | [], _ :: _, h => by simp [foldEq] at h
  | _ :: _, [], h => by simp [foldEq] at h
  | _ :: ta, _ :: tb, h => by
    simp only [foldEq, Bool.and_eq_true] at h
    simpa using foldEq_length h.2

theorem litExec_some (kw : List Char) (cs : Bool) (s : List Char) (li j len : Nat)
    (h : litExec kw cs s li = some (j, len)) :
    len = kw.length ∧ j + kw.length ≤ s.length := by
  simp only [litExec, Option.map_eq_some'] at h
  obtain ⟨j0, hf, he⟩ := h
  obtain ⟨-, hj, hp⟩ := findFromIdx_bounds hf
  injection he with ha hb
  have hfold : foldEq cs ((s.drop j0).take kw.length) kw = true := by
    simp only [litMatchAt, Bool.and_eq_true] at hp
    exact hp.2
  have hlen := foldEq_length hfold
  simp only [List.length_take, List.length_drop] at hlen
  exact ⟨hb.symm, by omega⟩

theorem urlExec_progress : ∀ (cs : Bool) (s : List Char) (li j len : Nat),
    urlExec cs s li = some (j, len) → 1 ≤ len ∧ j + len ≤ s.length := by
  intro cs s li j len h
  simp only [urlExec, Option.bind_eq_some, Option.map_eq_some'] at h
  obtain ⟨j0, hf, l, hmatch, he⟩ := h
  obtain ⟨-, hj, -⟩ := findFromIdx_bounds hf
  injection he with ha hb
  unfold urlMatchAt at hmatch
  split at hmatch
  case isFalse => exact absurd hmatch (by simp)
  case isTrue hfold =>
    split at hmatch
    case isTrue => exact absurd hmatch (by simp)
    case isFalse hnw =>
      have hl := Option.some.inj hmatch
      have h4 : ((s.drop j0).take 4).length = 4 := by
        simpa using foldEq_length hfold
      simp only [List.length_take, List.length_drop] at h4
      have hw : urlWs s j0 ≤ s.length - (j0 + 4) := by
        have := (List.takeWhile_prefix (l := s.drop (j0 + 4)) (p := isJsSpace)).length_le
        simpa [urlWs] using this
      have hnwle : urlNw s j0 ≤ s.length - (j0 + 4 + urlWs s j0) := by
        have := (List.takeWhile_prefix
          (l := (s.drop (j0 + 4)).drop (urlWs s j0))
          (p := fun c => !isJsSpace c)).length_le
        simpa [urlNw] using this
      omega

theorem jsLoop_mem {ex : Nat → Option (Nat × Nat)} :
    ∀ (fuel li : Nat) (acc : List (Nat × Nat)) (m : Nat × Nat),
      m ∈ (jsLoop ex fuel li acc).1 → m ∈ acc ∨ ∃ li2, ex li2 = some m := by
  intro fuel
  induction fuel with
  | zero => intro li acc m h; exact Or.inl h
  | succ f ih =>
    intro li acc m h
    cases hx : ex li with
    | none =>
      simp only [jsLoop, hx] at h
      exact Or.inl h
    | some m0 =>
      simp only [jsLoop, hx] at h
      rcases ih _ _ _ h with h1 | h2
      · rcases List.mem_append.mp h1 with ha | hb
        · exact Or.inl ha
        · exact Or.inr ⟨li, by rw [hx, List.mem_singleton.mp hb]⟩
      · exact Or.inr h2

theorem scanDescLit_mem_bounds {text kw : List Char} {cs : Bool} {p : CPattern} {li : Nat}
    {sp : Span} (hkw : kw ≠ []) (h : sp ∈ (scanDescLit text kw cs p li).1) :
    sp.1 < sp.2 ∧ sp.2 ≤ text.length := by
  simp only [scanDescLit, List.mem_flatMap] at h
  obtain ⟨m, hm, hsp⟩ := h
  simp only [List.mem_map] at hsp
  obtain ⟨km, hkm, rfl⟩ := hsp
  simp only [commentsOf, jsMatches] at hm
  rcases jsLoop_mem _ _ _ _ hm with h0 | ⟨li2, hex⟩
  · simp at h0
  have hmle : m.1 ≤ text.length := cpExec_start_le p text li2 m.1 m.2 hex
  simp only [kwMatchesIn, jsMatches] at hkm
  rcases jsLoop_mem _ _ _ _ hkm with h0 | ⟨li3, hkex⟩
  · simp at h0
  obtain ⟨-, hkb⟩ := litExec_some kw cs (commentSub text m) li3 km.1 km.2 hkex
  have hclen : (commentSub text m).length = min m.2 (text.length - m.1) := by
    simp [commentSub, List.length_take, List.length_drop]
  have hk : 0 < kw.length := List.length_pos.mpr hkw
  constructor
  · simp only []
    omega
  · simp only []
    omega

theorem findLiteralDescsSt_mem {text kw : List Char} {cs : Bool} :
    ∀ (ds : List CDesc) (st : List Nat) (sp : Span),
      sp ∈ (findLiteralDescsSt text kw cs ds st).1 →
      ∃ p li, sp ∈ (scanDescLit text kw cs p li).1 := by
  intro ds
  induction ds with
  | nil => intro st sp h; simp [findLiteralDescsSt] at h
  | cons d ds ih =>
    intro st sp h
    simp only [findLiteralDescsSt, List.mem_append] at h
    rcases h with h | h
    · exact ⟨d.pattern, st.headD 0, h⟩
    · exact ih _ _ h

theorem scanDescRegex_mem_bounds {uexec : RegexExec} {text : List Char} {p : CPattern} {li : Nat}
    {sp : Span}
    (hprog : ∀ (s : List Char) (li2 j len : Nat),
      uexec s li2 = some (j, len) → 1 ≤ len ∧ j + len ≤ s.length)
    (h : sp ∈ (scanDescRegex uexec text p li).1) :
    sp.1 < sp.2 ∧ sp.2 ≤ text.length := by
  simp only [scanDescRegex, List.mem_flatMap] at h
  obtain ⟨m, hm, hsp⟩ := h
  simp only [List.mem_map] at hsp
  obtain ⟨rm, hrm, rfl⟩ := hsp
  simp only [commentsOf, jsMatches] at hm
  rcases jsLoop_mem _ _ _ _ hm with h0 | ⟨li2, hex⟩
  · simp at h0
  have hmle : m.1 ≤ text.length := cpExec_start_le p text li2 m.1 m.2 hex
  simp only [userMatchesIn, jsMatches] at hrm
  rcases jsLoop_mem _ _ _ _ hrm with h0 | ⟨li3, hrex⟩
  · simp at h0
  obtain ⟨h1, h2⟩ := hprog _ _ _ _ hrex
  have hclen : (commentSub text m).length = min m.2 (text.length - m.1) := by
    simp [commentSub, List.length_take, List.length_drop]
  constructor
  · simp only []
    omega
  · simp only []
    omega

theorem findRegexDescsSt_mem {uexec : RegexExec} {text : List Char} :
    ∀ (ds : List CDesc) (st : List Nat) (sp : Span),
      sp ∈ (findRegexDescsSt uexec text ds st).1 →
      ∃ p li, sp ∈ (scanDescRegex uexec text p li).1 := by
  intro ds
  induction ds with
  | nil => intro st sp h; simp [findRegexDescsSt] at h
  | cons d ds ih =>
    intro st sp h
    simp only [findRegexDescsSt, List.mem_append] at h
    rcases h with h | h
    · exact ⟨d.pattern, st.headD 0, h⟩
    · exact ih _ _ h

/-- C2: on the text `"// TODO: fix this\nlet x = 5; // not a comment marker TODOX"`,
matching the literal keyword `TODO` case-insensitively over the JavaScript
comment descriptors yields exactly the one span `(3, 7)` — the `TODO` of the
first line comment — and no span for the `TODOX` in the second comment,
because of the word-boundary assertions around the escaped literal token.
The result is the same for any `enableRegexKeywords` value and any regex
compiler, since `TODO` is not a `/pattern/` keyword. -/
theorem literalTodoExactlyOnce :
    ∀ (enableRegex : Bool) (compile : RegexCompile),
      findCommentKeywords enableRegex compile c2Text (("TODO").data) jsDescriptors false
        = [(3, 7)] := by
  intro er compile
  have h : (er && isRegexKeyword (("TODO").data)) = false := by
    rw [show isRegexKeyword (("TODO").data) = false from by decide, Bool.and_false]
  unfold findCommentKeywords
  rw [h, if_neg (by decide)]
  decide

/-- C3: the keyword `/URL:\s*\S+/` is a recognized regex wrapper; the
matcher strips the surrounding slashes (`slice(1, -1)` yields the inner
pattern `URL:\s*\S+`); compiling that pattern (any compiler that gives the
pattern its JS semantics, here `urlExec`) and scanning the comment
containing `URL: http://x` produces exactly the span `(10, 23)` covering the
full matched substring offset by the comment start; matching is
case-insensitive (`url:` also matches) exactly when `caseSensitive` is
false (with the case-sensitive flags, `url:` does not match). -/
theorem regexUrlFullSpan :
    ∀ compile : RegexCompile,
      isRegexKeyword (("/URL:\\s*\\S+/").data) = true
      ∧ sliceInner (("/URL:\\s*\\S+/").data) = ("URL:\\s*\\S+").data
      ∧ (compile (("URL:\\s*\\S+").data) false = urlExec false →
          findRegexKeywords compile (("/URL:\\s*\\S+/").data) false c3Text jsDescriptors
            = [(10, 23)])
      ∧ (compile (("URL:\\s*\\S+").data) false = urlExec false →
          findRegexKeywords compile (("/URL:\\s*\\S+/").data) false c3TextLower jsDescriptors
            = [(10, 23)])
      ∧ (compile (("URL:\\s*\\S+").data) true = urlExec true →
          findRegexKeywords compile (("/URL:\\s*\\S+/").data) true c3TextLower jsDescriptors
            = []) := by
  intro compile
  refine ⟨by decide, by decide, ?_, ?_, ?_⟩ <;>
    · intro h
      unfold findRegexKeywords
      rw [show sliceInner (("/URL:\\s*\\S+/").data) = ("URL:\\s*\\S+").data from by decide, h]
      decide

/-- C3 witness: instantiating the compiler with the matcher of the inner
pattern discharges the hypotheses at concrete inputs. -/
theorem regexUrlFullSpan_witness :
    findRegexKeywords urlCompile (("/URL:\\s*\\S+/").data) false c3Text jsDescriptors
        = [(10, 23)]
      ∧ findRegexKeywords urlCompile (("/URL:\\s*\\S+/").data) true c3TextLower jsDescriptors
        = [] :=
  ⟨(regexUrlFullSpan urlCompile).2.2.1 rfl, (regexUrlFullSpan urlCompile).2.2.2.2 rfl⟩

/-- C4 counterexample: with the regex-mode keyword `/x*/` (whose pattern
matches the empty string) over the text `"// x"` and the JavaScript
descriptors, the matcher pushes spans with `endOffset = startOffset`: the
claim that every produced span satisfies `endOffset > startOffset` is
false.  (In JavaScript the `exec` loop additionally never terminates there,
since a zero-length match leaves `lastIndex` unchanged.) -/
theorem regexEmptyMatchEmptySpan :
    ¬ (∀ sp ∈ findRegexKeywords starXCompile (("/x*/").data) false (("// x").data) jsDescriptors,
        sp.1 < sp.2) := by
  decide

/-- C4 (amended): every span produced by the literal matcher with a
nonempty keyword token, and every span produced by the regex matcher when
the compiled pattern only yields nonempty in-bounds matches, satisfies
`startOffset < endOffset ≤ text.length` (offsets are naturals, so both lie
in `[0, text.length]`).  For a regex-mode pattern that can match the empty
string the guarantee fails (and the scanning loop does not terminate), as
the counterexample shows. -/
theorem matchSpanBounds :
    (∀ (text kw : List Char) (cs : Bool) (ds : List CDesc) (sp : Span),
        kw ≠ [] → sp ∈ findLiteralKeywords text kw cs ds →
        sp.1 < sp.2 ∧ sp.2 ≤ text.length)
    ∧ (∀ (compile : RegexCompile) (rkw : List Char) (cs : Bool) (text : List Char)
        (ds : List CDesc) (sp : Span),
        (∀ (s : List Char) (li j len : Nat),
          compile (sliceInner rkw) cs s li = some (j, len) → 1 ≤ len ∧ j + len ≤ s.length) →
        sp ∈ findRegexKeywords compile rkw cs text ds →
        sp.1 < sp.2 ∧ sp.2 ≤ text.length) := by
  constructor
  · intro text kw cs ds sp hkw h
    obtain ⟨p, li, hmem⟩ := findLiteralDescsSt_mem _ _ _ h
    exact scanDescLit_mem_bounds hkw hmem
  · intro compile rkw cs text ds sp hprog h
    obtain ⟨p, li, hmem⟩ := findRegexDescsSt_mem _ _ _ h
    exact scanDescRegex_mem_bounds hprog hmem

/-- C4 witness: the amended theorem applied to the concrete literal span
`(3, 7)` of the C2 text and the concrete regex span `(10, 23)` of the C3
text, the regex progress hypothesis discharged by `urlExec_progress`. -/
theorem matchSpanBounds_witness :
    (((3, 7) : Span).1 < ((3, 7) : Span).2 ∧ ((3, 7) : Span).2 ≤ c2Text.length)
    ∧ (((10, 23) : Span).1 < ((10, 23) : Span).2 ∧ ((10, 23) : Span).2 ≤ c3Text.length) :=
  ⟨matchSpanBounds.1 c2Text (("TODO").data) false jsDescriptors (3, 7) (by decide) (by decide),
   matchSpanBounds.2 urlCompile (("/URL:\\s*\\S+/").data) false c3Text jsDescriptors (10, 23)
     (fun s li j len h => urlExec_progress false s li j len h) (by decide)⟩

/-- C10: the literal matcher is deterministic across repeated calls.  After
any call, every descriptor's `lastIndex` cursor is 0 (the failing final
`exec` resets it and line 617 sets it explicitly), so no cursor position
leaks into the next call: the output of a call made on the state left by a
previous call equals the output on fresh (all-zero) cursors, and two
successive calls with the same arguments starting from fresh patterns
return identical span lists. -/
theorem literalMatcherStateless :
    ∀ (text kw : List Char) (cs : Bool) (ds : List CDesc) (st : List Nat),
      (findLiteralDescsSt text kw cs ds st).2 = List.replicate ds.length 0
      ∧ (findLiteralDescsSt text kw cs ds ((findLiteralDescsSt text kw cs ds st).2)).1
          = (findLiteralDescsSt text kw cs ds (List.replicate ds.length 0)).1
      ∧ (findLiteralDescsSt text kw cs ds
            ((findLiteralDescsSt text kw cs ds (List.replicate ds.length 0)).2)).1
          = (findLiteralDescsSt text kw cs ds (List.replicate ds.length 0)).1 := by
  have hstate : ∀ (ds : List CDesc) (st : List Nat) (text kw : List Char) (cs : Bool),
      (findLiteralDescsSt text kw cs ds st).2 = List.replicate ds.length 0 := by
    intro ds
    induction ds with
    | nil => intro st text kw cs; simp [findLiteralDescsSt]
    | cons d ds ih =>
      intro st text kw cs
      simp [findLiteralDescsSt, scanDescLit, ih, List.replicate_succ]
  intro text kw cs ds st
  refine ⟨hstate ds st text kw cs, ?_, ?_⟩ <;> rw [hstate]

theorem scanKeywords_mem_run {hasDeco : List Char → Bool}
    {run : List Char → Except (List Char) (List Span)} :
    ∀ {ks : List (List Char)} {k2 : List Char} {sp : List Span},
      (k2, sp) ∈ (scanKeywords hasDeco run ks).1 → run k2 = Except.ok sp := by
  intro ks
  induction ks with
  | nil => intro k2 sp h; simp [scanKeywords] at h
  | cons a ks ih =>
    intro k2 sp h
    cases hd : hasDeco a with
    | false => simp only [scanKeywords, hd, Bool.not_false, if_pos] at h; exact ih h
    | true =>
      simp only [scanKeywords, hd, Bool.not_true] at h
      rw [if_neg (by simp)] at h
      split at h
      next spa hra =>
        split at h
        · rcases List.mem_cons.mp h with heq | h2
          · cases heq
            exact hra
          · exact ih h2
        · exact ih h
      next e hra => exact ih h

theorem scanKeywords_ok_mem {hasDeco : List Char → Bool}
    {run : List Char → Except (List Char) (List Span)} :
    ∀ {ks : List (List Char)} {k2 : List Char} {sp : List Span},
      k2 ∈ ks → hasDeco k2 = true → run k2 = Except.ok sp → 0 < sp.length →
      (k2, sp) ∈ (scanKeywords hasDeco run ks).1 := by
  intro ks
  induction ks with
  | nil => intro k2 sp h; simp at h
  | cons a ks ih =>
    intro k2 sp hmem hd hok hlen
    rcases List.mem_cons.mp hmem with rfl | h2
    · simp only [scanKeywords, hd, Bool.not_true]
      rw [if_neg (by simp)]
      split
      next spa hra =>
        rw [hok] at hra
        cases hra
        rw [if_pos hlen]
        exact List.mem_cons_self _ _
      next e hra =>
        rw [hok] at hra
        cases hra
    · have hrec := ih h2 hd hok hlen
      cases hda : hasDeco a with
      | false => simpa only [scanKeywords, hda, Bool.not_false, if_pos] using hrec
      | true =>
        simp only [scanKeywords, hda, Bool.not_true]
        rw [if_neg (by simp)]
        split
        next spa hra =>
          split
          · exact List.mem_cons_of_mem _ hrec
          · exact hrec
        next e hra => exact hrec

theorem scanKeywords_err_logged {hasDeco : List Char → Bool}
    {run : List Char → Except (List Char) (List Span)} :
    ∀ {ks : List (List Char)} {k : List Char} {e : List Char},
      k ∈ ks → hasDeco k = true → run k = Except.error e →
      (errKwLine k, e) ∈ (scanKeywords hasDeco run ks).2 := by
  intro ks
  induction ks with
  | nil => intro k e h; simp at h
  | cons a ks ih =>
    intro k e hmem hd herr
    rcases List.mem_cons.mp hmem with rfl | h2
    · simp only [scanKeywords, hd, Bool.not_true]
      rw [if_neg (by simp)]
      split
      next spa hra =>
        rw [herr] at hra
        cases hra
      next e2 hra =>
        rw [herr] at hra
        cases hra
        exact List.mem_cons_self _ _
    · have hrec := ih h2 hd herr
      cases hda : hasDeco a with
      | false => simpa only [scanKeywords, hda, Bool.not_false, if_pos] using hrec
      | true =>
        simp only [scanKeywords, hda, Bool.not_true]
        rw [if_neg (by simp)]
        split
        next spa hra =>
          split
          · exact hrec
          · exact hrec
        next e2 hra => exact List.mem_cons_of_mem _ hrec

/-- C7: during a scan over the keyword set, a keyword whose matching fails
contributes no `(keyword, spans)` decoration to the result, an error naming
it is logged, and the matcher result of every other keyword with a
decoration type and nonempty spans still appears — one keyword's failure
never aborts the scan for the remaining keywords (`scanKeywords` is total
and its output on the other keywords is unchanged by the failure). -/
theorem keywordFailureIsolated :
    ∀ (hasDeco : List Char → Bool) (run : List Char → Except (List Char) (List Span))
      (ks : List (List Char)) (k e : List Char),
      run k = Except.error e →
      (∀ sp, (k, sp) ∉ (scanKeywords hasDeco run ks).1)
      ∧ (∀ k2, k2 ∈ ks → hasDeco k2 = true →
          ∀ sp, run k2 = Except.ok sp → 0 < sp.length →
            (k2, sp) ∈ (scanKeywords hasDeco run ks).1)
      ∧ (k ∈ ks → hasDeco k = true → (errKwLine k, e) ∈ (scanKeywords hasDeco run ks).2) := by
  intro hasDeco run ks k e herr
  refine ⟨?_, ?_, ?_⟩
  · intro sp hmem
    have := scanKeywords_mem_run hmem
    rw [herr] at this
    exact absurd this (by simp)
  · intro k2 hmem hd sp hok hlen
    exact scanKeywords_ok_mem hmem hd hok hlen
  · intro hmem hd
    exact scanKeywords_err_logged hmem hd herr

/-- C7 witness: with the demonstration matcher in which `BAD` fails and
`TODO` yields the span `(0, 4)`, the failing keyword is not decorated, its
error is logged, and `TODO` is still decorated. -/
theorem keywordFailureIsolated_witness :
    c7Run (("BAD").data) = Except.error (("boom").data)
      ∧ ((("BAD").data, ([(0, 4)] : List Span))
          ∉ (scanKeywords allDeco c7Run [("TODO").data, ("BAD").data]).1)
      ∧ ((("TODO").data, ([(0, 4)] : List Span))
          ∈ (scanKeywords allDeco c7Run [("TODO").data, ("BAD").data]).1)
      ∧ ((errKwLine (("BAD").data), ("boom").data)
          ∈ (scanKeywords allDeco c7Run [("TODO").data, ("BAD").data]).2) :=
  ⟨rfl,
   (keywordFailureIsolated allDeco c7Run [("TODO").data, ("BAD").data]
      (("BAD").data) (("boom").data) rfl).1 [(0, 4)],
   (keywordFailureIsolated allDeco c7Run [("TODO").data, ("BAD").data]
      (("BAD").data) (("boom").data) rfl).2.1 (("TODO").data) (by decide) rfl
      [(0, 4)] rfl (by decide),
   (keywordFailureIsolated allDeco c7Run [("TODO").data, ("BAD").data]
      (("BAD").data) (("boom").data) rfl).2.2 (by decide) rfl⟩

/-- C8: theme import requires at least one of `keywords`/`customKeywords`;
when both are absent the import returns the user-visible rejection message
and the configuration — stored keywords, custom keywords, and every
setting — is exactly what it was before the attempt. -/
theorem importRequiresKeywords :
    ∀ (t : Theme) (c : Config), t.keywords = none → t.customKeywords = none →
      importTheme t c
        = (c, ImportOutcome.rejected (("Invalid theme file: missing keywords").data)) := by
  intro t c h1 h2
  simp [importTheme, h1, h2]

/-- C8 witness: a concrete theme with both keyword keys absent (but a full
settings block) leaves a concrete configuration untouched and is rejected. -/
theorem importRequiresKeywords_witness :
    c8Theme.keywords = none ∧ c8Theme.customKeywords = none
      ∧ importTheme c8Theme c8Config
        = (c8Config, ImportOutcome.rejected (("Invalid theme file: missing keywords").data)) :=
  ⟨rfl, rfl, importRequiresKeywords c8Theme c8Config rfl rfl⟩

/-- C9: export followed by import is an identity on the highlighting
state: importing the theme document exported from a configuration writes back
exactly the same keywords, custom keywords, and settings
(`caseSensitive`, `highlightStyle`, `fontWeight`, `showIcons`,
`enableRegexKeywords`), so the configuration — and with it the merged
keyword set — is unchanged. -/
theorem exportImportRoundTrip :
    ∀ (c : Config) (dateName : List Char),
      (importTheme (exportTheme c dateName) c).1 = c
      ∧ safeMergeKeywords (importTheme (exportTheme c dateName) c).1 = safeMergeKeywords c := by
  intro c n
  have h : (importTheme (exportTheme c n) c).1 = c := rfl
  exact ⟨h, by rw [h]⟩

/-- C5: the error cap is not enforced.  On the 12th report (errorCount
already 11) `logError` still appends the `[ERROR]` line for the new message,
and additionally appends a "Too many errors" line — it suppresses nothing. -/
theorem logError_cap_not_enforced :
    (logError (("scan failed").data) none { lines := [], errorCount := 11 }).lines
      = [("[ERROR] scan failed").data,
         ("[ERROR] Too many errors (12), stopping logging").data] := by
  decide

end CommentWizard
